import Mathlib

/-!
Verification of the log-monitoring and auto-scaling core of
`log_monitor.py` (class `LogMonitor`): the per-line log parser, the
metrics aggregator (`parse_logs`), the scaling-policy evaluator
(`check_scaling_conditions`) and the capacity actuator
(`trigger_auto_scaling`).

Modelling conventions: lines are `List Char`; Python floats are
modelled as `ℚ`; the regular-expression searches of the source are
embedded as deterministic scanners over character lists (the concrete
patterns contain no backtracking ambiguity, see the soundness and
completeness lemmas below); `re.search` presence/absence is an
`Option`.
-/

/-- Characters matched by the regex class `\s` (ASCII whitespace),
also the characters stripped by `str.strip()`. -/
def isSpaceCh (c : Char) : Bool :=
  c = ' ' || c = '\t' || c = '\n' || c = '\r' || c = '\x0b' || c = '\x0c'

/-- Characters matched by the regex class `[:\s]` used as the separator
in the `response_time` and `status` patterns. -/
def isSepCh (c : Char) : Bool :=
  c = ':' || isSpaceCh c

/-- Numeric value of a digit string (base 10). -/
def natOfDigits (l : List Char) : Nat :=
  l.foldl (fun a c => 10 * a + (c.toNat - '0'.toNat)) 0

/-- Value of `float("<ds>.<fs>")`: integer part `ds`, fractional part `fs`. -/
def ratOfDigits (ds fs : List Char) : ℚ :=
  (natOfDigits ds : ℚ) + (natOfDigits fs : ℚ) / (10 : ℚ) ^ fs.length

/-- Strip the literal `pat` from the front of `l`; `some rest` on success. -/
def dropLit : List Char → List Char → Option (List Char)
  | [], l => some l
  | _ :: _, [] => none
  | p :: ps, c :: cs => if c = p then dropLit ps cs else none

/-- Whether the literal token `tok` occurs as a contiguous substring of `l`
(the presence half of `re.search` on a literal alternation branch). -/
def containsTok (tok : List Char) : List Char → Bool
  | [] => (dropLit tok []).isSome
  | c :: cs => (dropLit tok (c :: cs)).isSome || containsTok tok cs

/-- The error-marker alternation `(ERROR|FATAL|Exception|Failed)` searched
with `re.IGNORECASE`: lowercase the line and look for any lowercased token. -/
def hasErrorMarker (line : List Char) : Bool :=
  let low := line.map Char.toLower
  containsTok "error".toList low || containsTok "fatal".toList low ||
    containsTok "exception".toList low || containsTok "failed".toList low

/-- The literal head of the response-time pattern, `response_time`. -/
def rtLit : List Char :=
  ['r', 'e', 's', 'p', 'o', 'n', 's', 'e', '_', 't', 'i', 'm', 'e']

/-- The literal tail of the response-time pattern, `ms`. -/
def msLit : List Char := ['m', 's']

/-- The literal head of the status pattern, `status`. -/
def statusLit : List Char := ['s', 't', 'a', 't', 'u', 's']

/-- Match `(\d+\.?\d*)ms` at the head of `l`, returning the numeric value of
group 1. The quantifiers are greedy; no backtracking is needed because a
digit is never `.` or `m`. -/
def parseNumMs (l : List Char) : Option ℚ :=
  let ds := l.takeWhile Char.isDigit
  let r1 := l.dropWhile Char.isDigit
  if ds.isEmpty then none
  else
    match r1 with
    | '.' :: r2 =>
      let fs := r2.takeWhile Char.isDigit
      let r3 := r2.dropWhile Char.isDigit
      match dropLit msLit r3 with
      | some _ => some (ratOfDigits ds fs)
      | none => none
    | _ =>
      match dropLit msLit r1 with
      | some _ => some (ratOfDigits ds [])
      | none => none

/-- Match the full pattern `response_time[:\s]+(\d+\.?\d*)ms` at the head
of `l`. -/
def matchRTAt (l : List Char) : Option ℚ :=
  match dropLit rtLit l with
  | none => none
  | some rest =>
    let seps := rest.takeWhile isSepCh
    let rest2 := rest.dropWhile isSepCh
    if seps.isEmpty then none else parseNumMs rest2

/-- The scanning loop of `re.search`: try a head-anchored matcher at every
start position, leftmost first. -/
def scanFirst {α : Type} (f : List Char → Option α) : List Char → Option α
  | [] => none
  | c :: cs =>
    match f (c :: cs) with
    | some v => some v
    | none => scanFirst f cs

/-- Search `re.search(r"response_time[:\s]+(\d+\.?\d*)ms", line)`: try the pattern
at every start position, leftmost first; value of group 1 as a float. -/
def findRT : List Char → Option ℚ :=
  scanFirst matchRTAt

/-- Match `status[:\s]+(\d{3})` at the head of `l` (the three digits need
not be followed by a non-digit: the regex has no boundary assertion). -/
def matchStatusAt (l : List Char) : Option Nat :=
  match dropLit statusLit l with
  | none => none
  | some rest =>
    let seps := rest.takeWhile isSepCh
    let rest2 := rest.dropWhile isSepCh
    if seps.isEmpty then none
    else
      match rest2 with
      | a :: b :: c :: _ =>
        if a.isDigit && b.isDigit && c.isDigit then some (natOfDigits [a, b, c])
        else none
      | _ => none

/-- Search `re.search(r"status[:\s]+(\d{3})", line)`: leftmost match, group 1 as
an integer. -/
def findStatus : List Char → Option Nat :=
  scanFirst matchStatusAt

/-- The `self.metrics` dictionary of `LogMonitor`. -/
structure Metrics where
  error_count : Nat
  slow_responses : Nat
  total_requests : Nat
  avg_response_time : ℚ
deriving Repr, DecidableEq

/-- Constructor `LogMonitor.__init__`: all metrics start at zero. -/
def initMetrics : Metrics :=
  { error_count := 0, slow_responses := 0, total_requests := 0, avg_response_time := 0 }

/-- Python `if not line.strip(): continue`: a line is skipped when it is
empty or all whitespace. -/
def isBlank (line : List Char) : Bool :=
  line.all isSpaceCh

/-- The body of the per-line loop of `parse_logs`: update the metrics and the
local `response_times` accumulator for one line. -/
def processLine (m : Metrics) (ts : List ℚ) (line : List Char) : Metrics × List ℚ :=
  if isBlank line then (m, ts)
  else
    let m1 := { m with total_requests := m.total_requests + 1 }
    let m2 :=
      if hasErrorMarker line then { m1 with error_count := m1.error_count + 1 } else m1
    let p :=
      match findRT line with
      | some response_time =>
        (if response_time > 1000 then
            { m2 with slow_responses := m2.slow_responses + 1 }
          else m2, ts ++ [response_time])
      | none => (m2, ts)
    let m4 :=
      match findStatus line with
      | some status_code =>
        if status_code ≥ 500 then { p.1 with error_count := p.1.error_count + 1 } else p.1
      | none => p.1
    (m4, p.2)

/-- Python `log_content.split('\n')`. -/
def splitLines : List Char → List (List Char)
  | [] => [[]]
  | c :: cs =>
    if c = '\n' then [] :: splitLines cs
    else
      match splitLines cs with
      | [] => [[c]]
      | l :: ls => (c :: l) :: ls

/-- The per-line step of the nested loops of `parse_logs`, acting on the
pair (metrics state, `response_times` accumulator). -/
def stepFn (a : Metrics × List ℚ) (line : List Char) : Metrics × List ℚ :=
  processLine a.1 a.2 line

/-- Aggregator `LogMonitor.parse_logs`: fold every line of every blob through
`processLine`, then set `avg_response_time` to the mean of the collected
response times when at least one was collected. -/
def parse_logs (m : Metrics) (log_contents : List (List Char)) : Metrics :=
  let p := log_contents.foldl
    (fun acc log_content => (splitLines log_content).foldl stepFn acc)
    (m, [])
  if p.2.isEmpty then p.1
  else { p.1 with avg_response_time := p.2.sum / (p.2.length : ℚ) }

/-- The `'scale_up' / 'scale_down' / 'maintain'` return values of
`check_scaling_conditions`. -/
inductive Decision where
  | scaleUp
  | scaleDown
  | maintain
deriving Repr, DecidableEq

/-- The four kinds of reason strings appended to `reasons`. -/
inductive Reason where
  | highCpu
  | lowCpu
  | highErrorRate
  | highSlowRate
deriving Repr, DecidableEq

def CPU_HIGH_THRESHOLD : ℚ := 70
def CPU_LOW_THRESHOLD : ℚ := 20
def ERROR_RATE_THRESHOLD : ℚ := 5
def SLOW_RESPONSE_THRESHOLD : ℚ := 10

/-- Evaluator `LogMonitor.check_scaling_conditions`: `ec2_metrics` is the list of
per-instance CPU utilizations. Returns the decision with the accumulated
reasons (the source prints the reasons and returns the decision string). -/
def check_scaling_conditions (m : Metrics) (ec2_metrics : List ℚ) : Decision × List Reason :=
  let s1 : Bool × Bool × List Reason :=
    if ec2_metrics.isEmpty then (false, false, [])
    else
      let avg_cpu := ec2_metrics.sum / (ec2_metrics.length : ℚ)
      if avg_cpu > CPU_HIGH_THRESHOLD then (true, false, [Reason.highCpu])
      else if avg_cpu < CPU_LOW_THRESHOLD then (false, true, [Reason.lowCpu])
      else (false, false, [])
  let s2 : Bool × List Reason :=
    if 0 < m.total_requests then
      let error_rate := (m.error_count : ℚ) / (m.total_requests : ℚ) * 100
      if error_rate > ERROR_RATE_THRESHOLD then (true, s1.2.2 ++ [Reason.highErrorRate])
      else (s1.1, s1.2.2)
    else (s1.1, s1.2.2)
  let s3 : Bool × List Reason :=
    if 0 < m.total_requests then
      let slow_rate := (m.slow_responses : ℚ) / (m.total_requests : ℚ) * 100
      if slow_rate > SLOW_RESPONSE_THRESHOLD then (true, s2.2 ++ [Reason.highSlowRate])
      else (s2.1, s2.2)
    else (s2.1, s2.2)
  if s3.1 then (Decision.scaleUp, s3.2)
  else if s1.2.1 then (Decision.scaleDown, s3.2)
  else (Decision.maintain, s3.2)

/-- Actuator `LogMonitor.trigger_auto_scaling`, capacity logic only: given the
decision and the fleet's current/min/max sizes, `some n` means the desired
capacity is set to `n`, `none` means the early `return` (no action). -/
def trigger_auto_scaling (action : Decision) (current_capacity min_size max_size : ℤ) :
    Option ℤ :=
  if action = Decision.scaleUp ∧ current_capacity < max_size then
    some (min (current_capacity + 1) max_size)
  else if action = Decision.scaleDown ∧ current_capacity > min_size then
    some (max (current_capacity - 1) min_size)
  else none

/-! Per-line effect of the aggregator -/

/-- Contribution of one line to `total_requests`. -/
def lineReq (l : List Char) : Nat :=
  if isBlank l then 0 else 1

/-- Contribution of one line to `error_count`: one for an error marker and,
independently, one for a parsed status code `≥ 500`. -/
def lineErr (l : List Char) : Nat :=
  if isBlank l then 0
  else
    (if hasErrorMarker l then 1 else 0) +
      (match findStatus l with
        | some s => if s ≥ 500 then 1 else 0
        | none => 0)

/-- Contribution of one line to `slow_responses`. -/
def lineSlow (l : List Char) : Nat :=
  if isBlank l then 0
  else
    match findRT l with
    | some r => if r > 1000 then 1 else 0
    | none => 0

/-- Response times a line appends to the `response_times` accumulator. -/
def lineTimes (l : List Char) : List ℚ :=
  if isBlank l then [] else (findRT l).toList

theorem processLine_spec (m : Metrics) (ts : List ℚ) (l : List Char) :
    processLine m ts l =
      ({ error_count := m.error_count + lineErr l,
         slow_responses := m.slow_responses + lineSlow l,
         total_requests := m.total_requests + lineReq l,
         avg_response_time := m.avg_response_time }, ts ++ lineTimes l) := by
  unfold processLine lineErr lineSlow lineReq lineTimes
  by_cases hb : isBlank l
  · simp [hb]
  · cases hrt : findRT l <;> cases hst : findStatus l <;>
      by_cases he : hasErrorMarker l <;>
      simp [hb, hrt, hst, he, Option.toList] <;>
      first
        | rfl
        | (split <;> split <;> simp +arith)
        | (split <;> simp +arith)

/-! Aggregation over whole batches -/

theorem foldl_stepFn (ls : List (List Char)) (m : Metrics) (ts : List ℚ) :
    ls.foldl stepFn (m, ts) =
      ({ error_count := m.error_count + (ls.map lineErr).sum,
         slow_responses := m.slow_responses + (ls.map lineSlow).sum,
         total_requests := m.total_requests + (ls.map lineReq).sum,
         avg_response_time := m.avg_response_time }, ts ++ (ls.map lineTimes).flatten) := by
  induction ls generalizing m ts with
  | nil => simp
  | cons l ls ih =>
    simp only [List.foldl_cons, stepFn, processLine_spec, ih, List.map_cons, List.sum_cons,
      List.flatten_cons, List.append_assoc]
    simp +arith

/-- All lines of a batch of blobs, in processing order. -/
def linesOf (log_contents : List (List Char)) : List (List Char) :=
  (log_contents.map splitLines).flatten

/-- All response times collected from a batch of blobs, in order. -/
def respTimes (log_contents : List (List Char)) : List ℚ :=
  ((linesOf log_contents).map lineTimes).flatten

theorem parse_logs_fold (log_contents : List (List Char)) (p : Metrics × List ℚ) :
    log_contents.foldl (fun acc content => (splitLines content).foldl stepFn acc) p =
      (linesOf log_contents).foldl stepFn p := by
  rw [linesOf, List.foldl_flatten, List.foldl_map]

theorem parse_logs_spec (m : Metrics) (log_contents : List (List Char)) :
    parse_logs m log_contents =
      { error_count := m.error_count + ((linesOf log_contents).map lineErr).sum,
        slow_responses := m.slow_responses + ((linesOf log_contents).map lineSlow).sum,
        total_requests := m.total_requests + ((linesOf log_contents).map lineReq).sum,
        avg_response_time :=
          if respTimes log_contents = [] then m.avg_response_time
          else (respTimes log_contents).sum / ((respTimes log_contents).length : ℚ) } := by
  unfold parse_logs
  rw [parse_logs_fold, foldl_stepFn]
  simp only [List.nil_append, respTimes]
  split <;> split <;> simp_all [List.isEmpty_iff]

theorem sum_lineReq (ls : List (List Char)) :
    (ls.map lineReq).sum = (ls.filter (fun l => !isBlank l)).length := by
  induction ls with
  | nil => rfl
  | cons l ls ih =>
    by_cases hb : isBlank l <;> simp +arith [lineReq, hb, ih, List.filter_cons]

/-! Evaluator characterization -/

/-- The high-CPU "up" trigger: samples exist and their mean exceeds 70. -/
def cpuHighT (cpus : List ℚ) : Bool :=
  !cpus.isEmpty && decide (cpus.sum / (cpus.length : ℚ) > CPU_HIGH_THRESHOLD)

/-- The low-CPU "down" trigger: samples exist and their mean is below 20. -/
def cpuLowT (cpus : List ℚ) : Bool :=
  !cpus.isEmpty && decide (cpus.sum / (cpus.length : ℚ) < CPU_LOW_THRESHOLD)

/-- The error-rate "up" trigger: requests exist and the error rate exceeds 5%. -/
def errHighT (m : Metrics) : Bool :=
  decide (0 < m.total_requests) &&
    decide ((m.error_count : ℚ) / (m.total_requests : ℚ) * 100 > ERROR_RATE_THRESHOLD)

/-- The slow-rate "up" trigger: requests exist and the slow rate exceeds 10%. -/
def slowHighT (m : Metrics) : Bool :=
  decide (0 < m.total_requests) &&
    decide ((m.slow_responses : ℚ) / (m.total_requests : ℚ) * 100 > SLOW_RESPONSE_THRESHOLD)

/-- Reasons recorded by one evaluation, in source order. -/
def expectedReasons (m : Metrics) (cpus : List ℚ) : List Reason :=
  (if cpuHighT cpus then [Reason.highCpu]
   else if cpuLowT cpus then [Reason.lowCpu] else []) ++
    (if errHighT m then [Reason.highErrorRate] else []) ++
    (if slowHighT m then [Reason.highSlowRate] else [])

theorem check_spec (m : Metrics) (cpus : List ℚ) :
    check_scaling_conditions m cpus =
      ((if cpuHighT cpus || errHighT m || slowHighT m then Decision.scaleUp
        else if cpuLowT cpus then Decision.scaleDown
        else Decision.maintain), expectedReasons m cpus) := by
  unfold check_scaling_conditions expectedReasons cpuHighT cpuLowT errHighT slowHighT
  by_cases hemp : cpus.isEmpty <;>
    by_cases htot : 0 < m.total_requests <;>
    simp [hemp, htot] <;> split_ifs <;> simp_all <;>
    (casesm* _ ∨ _) <;> linarith

/-! Generic scanner lemmas -/

theorem scanFirst_eq_some {α : Type} (f : List Char → Option α) :
    ∀ (l : List Char) (v : α), scanFirst f l = some v →
      ∃ pre suf, l = pre ++ suf ∧ f suf = some v := by
  intro l
  induction l with
  | nil => intro v h; simp [scanFirst] at h
  | cons c cs ih =>
    intro v h
    rw [scanFirst] at h
    cases hf : f (c :: cs) with
    | some w =>
      rw [hf] at h
      exact ⟨[], c :: cs, by simp, by simp [hf, ← h]⟩
    | none =>
      rw [hf] at h
      obtain ⟨pre, suf, heq, hsuf⟩ := ih v h
      exact ⟨c :: pre, suf, by simp [heq], hsuf⟩

theorem scanFirst_isSome {α : Type} (f : List Char → Option α) (hnil : f [] = none) :
    ∀ (pre suf : List Char) (v : α), f suf = some v →
      (scanFirst f (pre ++ suf)).isSome = true := by
  intro pre
  induction pre with
  | nil =>
    intro suf v hsuf
    cases suf with
    | nil => rw [hnil] at hsuf; exact absurd hsuf (by simp)
    | cons c cs => simp [scanFirst, hsuf]
  | cons c pre ih =>
    intro suf v hsuf
    rw [List.cons_append, scanFirst]
    cases hf : f (c :: (pre ++ suf)) with
    | some w => simp
    | none => exact ih suf v hsuf

/-! Literal and character-class helper lemmas -/

theorem dropLit_eq_some (pat : List Char) :
    ∀ l r, dropLit pat l = some r ↔ l = pat ++ r := by
  induction pat with
  | nil => intro l r; simp [dropLit]
  | cons p ps ih =>
    intro l r
    cases l with
    | nil => simp [dropLit]
    | cons c cs =>
      rw [dropLit]
      by_cases hc : c = p
      · simp [hc, ih]
      · simp [hc]

theorem digit_not_sep (c : Char) (h : isSepCh c = true) : c.isDigit = false := by
  simp [isSepCh, isSpaceCh] at h
  casesm* _ ∨ _ <;> subst_vars <;> decide

theorem takeWhile_app_of (p : Char → Bool) :
    ∀ (a b : List Char), (∀ c ∈ a, p c = true) →
      (∀ c t, b = c :: t → p c = false) →
      (a ++ b).takeWhile p = a ∧ (a ++ b).dropWhile p = b := by
  intro a
  induction a with
  | nil =>
    intro b _ hb
    cases b with
    | nil => simp
    | cons c t =>
      simp [List.takeWhile_cons, List.dropWhile_cons, hb c t rfl]
  | cons x xs ih =>
    intro b ha hb
    have hx : p x = true := ha x (by simp)
    have h2 := ih b (fun c hc => ha c (by simp [hc])) hb
    simp [List.takeWhile_cons, List.dropWhile_cons, hx, h2.1, h2.2]

theorem dropWhile_head_not (p : Char → Bool) :
    ∀ (l : List Char) c t, l.dropWhile p = c :: t → p c = false := by
  intro l
  induction l with
  | nil => intro c t h; simp [List.dropWhile] at h
  | cons x xs ih =>
    intro c t h
    by_cases hx : p x
    · exact ih c t (by simpa [List.dropWhile_cons, hx] using h)
    · rw [List.dropWhile_cons] at h
      simp [hx] at h
      obtain ⟨h1, -⟩ := h
      subst h1
      simpa using hx

/-! Declarative decompositions of the two regex patterns -/

theorem digit_not_sepCh (c : Char) (h : c.isDigit = true) : isSepCh c = false := by
  by_cases hs : isSepCh c = true
  · rw [digit_not_sep c hs] at h; cases h
  · simpa using hs

/-- The group `\d+\.?\d*` immediately followed by `ms`, with the value
`float` gives the matched text: one or more digits, then optionally a dot
and zero or more fractional digits. -/
def NumMsTok (num : List Char) (v : ℚ) : Prop :=
  (∃ ds, ds ≠ [] ∧ (∀ c ∈ ds, c.isDigit = true) ∧ num = ds ∧ v = ratOfDigits ds []) ∨
    (∃ ds fs, ds ≠ [] ∧ (∀ c ∈ ds, c.isDigit = true) ∧ (∀ c ∈ fs, c.isDigit = true) ∧
      num = ds ++ '.' :: fs ∧ v = ratOfDigits ds fs)

/-- The response-time pattern anchored at the head of `l`, with one or more
whitespace/colon separator characters (as in the source regex `[:\s]+`). -/
def RTPatAt (l : List Char) (v : ℚ) : Prop :=
  ∃ seps num rest, seps ≠ [] ∧ (∀ c ∈ seps, isSepCh c = true) ∧ NumMsTok num v ∧
    l = rtLit ++ seps ++ num ++ msLit ++ rest

/-- The line contains `response_time`, one or more whitespace/colon
characters, a floating-point number and the literal `ms`, the number having
value `v`. -/
def ContainsRT (l : List Char) (v : ℚ) : Prop :=
  ∃ pre suf, l = pre ++ suf ∧ RTPatAt suf v

/-- The response-time pattern as the specification words it, with the
whitespace/colon separators merely optional (possibly absent). -/
def RTPatSpecAt (l : List Char) (v : ℚ) : Prop :=
  ∃ seps num rest, (∀ c ∈ seps, isSepCh c = true) ∧ NumMsTok num v ∧
    l = rtLit ++ seps ++ num ++ msLit ++ rest

/-- Containment version of `RTPatSpecAt`: the spec-worded claim C5 pattern. -/
def ContainsRTSpec (l : List Char) (v : ℚ) : Prop :=
  ∃ pre suf, l = pre ++ suf ∧ RTPatSpecAt suf v

/-- The status pattern anchored at the head of `l`: `status`, one or more
whitespace/colon separators, three digits (no trailing boundary). -/
def StatusPatAt (l : List Char) (v : Nat) : Prop :=
  ∃ seps a b c rest, seps ≠ [] ∧ (∀ x ∈ seps, isSepCh x = true) ∧
    a.isDigit = true ∧ b.isDigit = true ∧ c.isDigit = true ∧
    v = natOfDigits [a, b, c] ∧ l = statusLit ++ seps ++ a :: b :: c :: rest

/-- The line contains `status`, one or more whitespace/colon characters and
three digits of value `v`. -/
def ContainsStatus (l : List Char) (v : Nat) : Prop :=
  ∃ pre suf, l = pre ++ suf ∧ StatusPatAt suf v

/-- The status pattern as the specification words it, with the separators
merely optional (possibly absent). -/
def StatusPatSpecAt (l : List Char) (v : Nat) : Prop :=
  ∃ seps a b c rest, (∀ x ∈ seps, isSepCh x = true) ∧
    a.isDigit = true ∧ b.isDigit = true ∧ c.isDigit = true ∧
    v = natOfDigits [a, b, c] ∧ l = statusLit ++ seps ++ a :: b :: c :: rest

/-- Containment version of `StatusPatSpecAt`: the spec-worded claim C6 pattern. -/
def ContainsStatusSpec (l : List Char) (v : Nat) : Prop :=
  ∃ pre suf, l = pre ++ suf ∧ StatusPatSpecAt suf v

/-! Soundness and completeness of the head-anchored matchers -/

theorem parseNumMs_eq_some (l : List Char) (v : ℚ) (h : parseNumMs l = some v) :
    ∃ num rest, NumMsTok num v ∧ l = num ++ msLit ++ rest := by
  have hsplit := (List.takeWhile_append_dropWhile (p := Char.isDigit) (l := l)).symm
  have hdigs : ∀ c ∈ l.takeWhile Char.isDigit, c.isDigit = true :=
    fun _ hc => List.mem_takeWhile_imp hc
  simp only [parseNumMs] at h
  split at h
  · exact absurd h (by simp)
  · rename_i hne
    have hne' : l.takeWhile Char.isDigit ≠ [] := by
      intro h0; rw [h0] at hne; exact hne rfl
    split at h
    · rename_i r2 heq
      split at h
      · rename_i tail hms
        obtain ⟨rfl⟩ : ratOfDigits (l.takeWhile Char.isDigit) (r2.takeWhile Char.isDigit) = v :=
          by injection h
        refine ⟨l.takeWhile Char.isDigit ++ '.' :: r2.takeWhile Char.isDigit, tail,
          Or.inr ⟨l.takeWhile Char.isDigit, r2.takeWhile Char.isDigit, hne', hdigs,
            fun c hc => List.mem_takeWhile_imp hc, rfl, rfl⟩, ?_⟩
        have hr2 : r2 = r2.takeWhile Char.isDigit ++ (msLit ++ tail) := by
          rw [← (dropLit_eq_some msLit _ tail).mp hms]
          exact (List.takeWhile_append_dropWhile (p := Char.isDigit) (l := r2)).symm
        have goal1 : l = l.takeWhile Char.isDigit ++
            '.' :: (r2.takeWhile Char.isDigit ++ (msLit ++ tail)) := by
          conv_lhs => rw [hsplit, heq, hr2]
        exact goal1.trans (by simp)
      · exact absurd h (by simp)
    · rename_i hnotdot
      split at h
      · rename_i tail hms
        obtain ⟨rfl⟩ : ratOfDigits (l.takeWhile Char.isDigit) [] = v := by injection h
        refine ⟨l.takeWhile Char.isDigit, tail,
          Or.inl ⟨l.takeWhile Char.isDigit, hne', hdigs, rfl, rfl⟩, ?_⟩
        have goal2 : l = l.takeWhile Char.isDigit ++ (msLit ++ tail) := by
          conv_lhs => rw [hsplit, (dropLit_eq_some msLit _ tail).mp hms]
        exact goal2.trans (by simp)
      · exact absurd h (by simp)

theorem parseNumMs_complete (num rest : List Char) (v : ℚ) (h : NumMsTok num v) :
    parseNumMs (num ++ msLit ++ rest) = some v := by
  rw [List.append_assoc]
  rcases h with ⟨ds, hne, hdig, rfl, rfl⟩ | ⟨ds, fs, hne, hdig, hfdig, rfl, rfl⟩
  · have hta := takeWhile_app_of Char.isDigit num (msLit ++ rest) hdig
      (by intro c t hct
          rw [msLit, List.cons_append] at hct
          injection hct with h1 _
          subst h1
          decide)
    have hEmp : num.isEmpty = false := List.isEmpty_eq_false.mpr hne
    have hms : dropLit msLit (msLit ++ rest) = some rest :=
      (dropLit_eq_some msLit _ rest).mpr rfl
    simp only [parseNumMs, hta.1, hta.2, hEmp, Bool.false_eq_true, if_false]
    split
    · rename_i r2 heq
      exfalso
      rw [msLit, List.cons_append] at heq
      injection heq with h1 _
      exact absurd h1 (by decide)
    · rw [hms]
  · have hta := takeWhile_app_of Char.isDigit ds ('.' :: (fs ++ (msLit ++ rest))) hdig
      (by intro c t hct
          injection hct with h1 _
          subst h1
          decide)
    have htb := takeWhile_app_of Char.isDigit fs (msLit ++ rest) hfdig
      (by intro c t hct
          rw [msLit, List.cons_append] at hct
          injection hct with h1 _
          subst h1
          decide)
    have hEmp : ds.isEmpty = false := List.isEmpty_eq_false.mpr hne
    have hms : dropLit msLit (msLit ++ rest) = some rest :=
      (dropLit_eq_some msLit _ rest).mpr rfl
    have hshape : ds ++ '.' :: fs ++ (msLit ++ rest) =
        ds ++ '.' :: (fs ++ (msLit ++ rest)) := by simp
    rw [hshape]
    simp only [parseNumMs, hta.1, hta.2, hEmp, Bool.false_eq_true, if_false]
    split
    · rw [htb.1]
    · rename_i hnot
      rw [htb.2, hms] at hnot
      exact absurd hnot (by simp)

theorem matchRTAt_eq_some (l : List Char) (v : ℚ) (h : matchRTAt l = some v) :
    RTPatAt l v := by
  simp only [matchRTAt] at h
  split at h
  · exact absurd h (by simp)
  · rename_i rest hdl
    split at h
    · exact absurd h (by simp)
    · rename_i hEmp
      obtain ⟨num, rest', hnum, hr2⟩ := parseNumMs_eq_some _ _ h
      refine ⟨rest.takeWhile isSepCh, num, rest', ?_,
        fun c hc => List.mem_takeWhile_imp hc, hnum, ?_⟩
      · intro h0; rw [h0] at hEmp; exact hEmp rfl
      · have h1 : l = rtLit ++ rest := (dropLit_eq_some rtLit l rest).mp hdl
        have h2 : rest = rest.takeWhile isSepCh ++ rest.dropWhile isSepCh :=
          (List.takeWhile_append_dropWhile (p := isSepCh) (l := rest)).symm
        rw [h1]
        conv_lhs => rw [h2, hr2]
        simp

theorem matchRTAt_complete (l : List Char) (v : ℚ) (h : RTPatAt l v) :
    matchRTAt l = some v := by
  obtain ⟨seps, num, rest, hne, hsep, hnum, rfl⟩ := h
  have hshape : rtLit ++ seps ++ num ++ msLit ++ rest =
      rtLit ++ (seps ++ (num ++ msLit ++ rest)) := by simp
  rw [hshape]
  have hdl : dropLit rtLit (rtLit ++ (seps ++ (num ++ msLit ++ rest))) =
      some (seps ++ (num ++ msLit ++ rest)) := (dropLit_eq_some rtLit _ _).mpr rfl
  have hhd : ∀ c t, num ++ msLit ++ rest = c :: t → isSepCh c = false := by
    intro c t hct
    rcases hnum with ⟨ds, hdne, hdig, rfl, -⟩ | ⟨ds, fs, hdne, hdig, -, rfl, -⟩
    · cases num with
      | nil => exact absurd rfl hdne
      | cons d ds' =>
        simp only [List.cons_append, List.append_assoc] at hct
        injection hct with h1 _
        subst h1
        exact digit_not_sepCh _ (hdig _ (by simp))
    · cases ds with
      | nil => exact absurd rfl hdne
      | cons d ds' =>
        simp only [List.cons_append, List.append_assoc] at hct
        injection hct with h1 _
        subst h1
        exact digit_not_sepCh _ (hdig _ (by simp))
  have hta := takeWhile_app_of isSepCh seps (num ++ msLit ++ rest) hsep hhd
  have hEmp : seps.isEmpty = false := List.isEmpty_eq_false.mpr hne
  simp only [matchRTAt, hdl, hta.1, hta.2, hEmp, Bool.false_eq_true, if_false]
  exact parseNumMs_complete num rest v hnum

theorem matchRTAt_nil : matchRTAt [] = none := rfl

theorem findRT_some_contains (l : List Char) (v : ℚ) (h : findRT l = some v) :
    ContainsRT l v := by
  obtain ⟨pre, suf, rfl, hsuf⟩ := scanFirst_eq_some matchRTAt l v h
  exact ⟨pre, suf, rfl, matchRTAt_eq_some suf v hsuf⟩

theorem contains_findRT_isSome (l : List Char) (v : ℚ) (h : ContainsRT l v) :
    (findRT l).isSome = true := by
  obtain ⟨pre, suf, rfl, hp⟩ := h
  exact scanFirst_isSome matchRTAt matchRTAt_nil pre suf v (matchRTAt_complete suf v hp)

theorem matchStatusAt_eq_some (l : List Char) (v : Nat) (h : matchStatusAt l = some v) :
    StatusPatAt l v := by
  simp only [matchStatusAt] at h
  split at h
  · exact absurd h (by simp)
  · rename_i rest hdl
    split at h
    · exact absurd h (by simp)
    · rename_i hEmp
      split at h
      · rename_i a b c tail heq
        split at h
        · rename_i hdig
          obtain ⟨rfl⟩ : natOfDigits [a, b, c] = v := by injection h
          simp only [Bool.and_eq_true] at hdig
          refine ⟨rest.takeWhile isSepCh, a, b, c, tail, ?_,
            fun x hx => List.mem_takeWhile_imp hx, hdig.1.1, hdig.1.2, hdig.2, rfl, ?_⟩
          · intro h0; rw [h0] at hEmp; exact hEmp rfl
          · have h1 : l = statusLit ++ rest := (dropLit_eq_some statusLit l rest).mp hdl
            have h2 : rest = rest.takeWhile isSepCh ++ rest.dropWhile isSepCh :=
              (List.takeWhile_append_dropWhile (p := isSepCh) (l := rest)).symm
            rw [h1]
            conv_lhs => rw [h2, heq]
            simp
        · exact absurd h (by simp)
      · exact absurd h (by simp)

theorem matchStatusAt_complete (l : List Char) (v : Nat) (h : StatusPatAt l v) :
    matchStatusAt l = some v := by
  obtain ⟨seps, a, b, c, rest, hne, hsep, da, db, dc, rfl, rfl⟩ := h
  have hshape : statusLit ++ seps ++ a :: b :: c :: rest =
      statusLit ++ (seps ++ a :: b :: c :: rest) := by simp
  rw [hshape]
  have hdl : dropLit statusLit (statusLit ++ (seps ++ a :: b :: c :: rest)) =
      some (seps ++ a :: b :: c :: rest) := (dropLit_eq_some statusLit _ _).mpr rfl
  have hta := takeWhile_app_of isSepCh seps (a :: b :: c :: rest) hsep
    (by intro x t hxt
        injection hxt with h1 _
        subst h1
        exact digit_not_sepCh _ da)
  have hEmp : seps.isEmpty = false := List.isEmpty_eq_false.mpr hne
  simp only [matchStatusAt, hdl, hta.1, hta.2, hEmp, Bool.false_eq_true, if_false]
  simp [da, db, dc]

theorem matchStatusAt_nil : matchStatusAt [] = none := rfl

theorem findStatus_some_contains (l : List Char) (v : Nat) (h : findStatus l = some v) :
    ContainsStatus l v := by
  obtain ⟨pre, suf, rfl, hsuf⟩ := scanFirst_eq_some matchStatusAt l v h
  exact ⟨pre, suf, rfl, matchStatusAt_eq_some suf v hsuf⟩

theorem contains_findStatus_isSome (l : List Char) (v : Nat) (h : ContainsStatus l v) :
    (findStatus l).isSome = true := by
  obtain ⟨pre, suf, rfl, hp⟩ := h
  exact scanFirst_isSome matchStatusAt matchStatusAt_nil pre suf v
    (matchStatusAt_complete suf v hp)

/-! Per-line bounds and reason-membership helpers -/

theorem lineSlow_le_lineReq (l : List Char) : lineSlow l ≤ lineReq l := by
  unfold lineSlow lineReq
  split
  · exact Nat.le_refl 0
  · split
    · split <;> omega
    · omega

theorem lineErr_le_two_lineReq (l : List Char) : lineErr l ≤ 2 * lineReq l := by
  unfold lineErr lineReq
  split
  · omega
  · split <;> split <;> first | (split_ifs <;> omega) | omega

theorem mem_reasons_highErr (m : Metrics) (cpus : List ℚ) :
    Reason.highErrorRate ∈ expectedReasons m cpus ↔ errHighT m = true := by
  unfold expectedReasons
  split_ifs <;> simp_all

theorem mem_reasons_highSlow (m : Metrics) (cpus : List ℚ) :
    Reason.highSlowRate ∈ expectedReasons m cpus ↔ slowHighT m = true := by
  unfold expectedReasons
  split_ifs <;> simp_all

theorem mem_reasons_highCpu (m : Metrics) (cpus : List ℚ) :
    Reason.highCpu ∈ expectedReasons m cpus ↔ cpuHighT cpus = true := by
  unfold expectedReasons
  split_ifs <;> simp_all

theorem mem_reasons_lowCpu (m : Metrics) (cpus : List ℚ) :
    Reason.lowCpu ∈ expectedReasons m cpus ↔
      (cpuHighT cpus = false ∧ cpuLowT cpus = true) := by
  unfold expectedReasons
  split_ifs <;> simp_all

/-! Claim theorems -/

/-- Whether the line has a parsable status code that is `≥ 500`. -/
def statusErrB (l : List Char) : Bool :=
  match findStatus l with
  | some s => decide (s ≥ 500)
  | none => false

theorem lineErr_eq (l : List Char) (hb : isBlank l = false) :
    lineErr l = (if hasErrorMarker l then 1 else 0) + (if statusErrB l then 1 else 0) := by
  rw [lineErr, statusErrB]
  simp only [hb, Bool.false_eq_true, if_false]
  cases findStatus l <;> simp [ge_iff_le]

/-- C1: for a non-empty line, an error marker and a parsable status code
`≥ 500` each independently add 1 to `error_count`: both present add exactly
2 for that line, exactly one present adds exactly 1. -/
theorem c1_error_count_increments (m : Metrics) (ts : List ℚ) (l : List Char)
    (hb : isBlank l = false) :
    (hasErrorMarker l = true → statusErrB l = true →
      (processLine m ts l).1.error_count = m.error_count + 2) ∧
    (hasErrorMarker l = true → statusErrB l = false →
      (processLine m ts l).1.error_count = m.error_count + 1) ∧
    (hasErrorMarker l = false → statusErrB l = true →
      (processLine m ts l).1.error_count = m.error_count + 1) := by
  rw [processLine_spec]
  refine ⟨fun h1 h2 => ?_, fun h1 h2 => ?_, fun h1 h2 => ?_⟩ <;>
    simp +arith [lineErr_eq l hb, h1, h2]

def c1Line : List Char := "ERROR status: 503".toList

theorem c1_error_count_increments_witness :
    (processLine initMetrics [] c1Line).1.error_count = initMetrics.error_count + 2 :=
  (c1_error_count_increments initMetrics [] c1Line (by decide)).1 (by decide) (by decide)

/-- C2: with `min ≤ current ≤ max`, the actuator adds exactly 1 on ScaleUp
below `max`, subtracts exactly 1 on ScaleDown above `min`, does nothing in
every other combination, and any capacity it sets lies in `[min, max]` and
is exactly `current ± 1`. -/
theorem c2_actuator_capacity (action : Decision) (current lo hi : ℤ)
    (hlo : lo ≤ current) (hhi : current ≤ hi) :
    (action = Decision.scaleUp → current < hi →
      trigger_auto_scaling action current lo hi = some (current + 1)) ∧
    (action = Decision.scaleDown → lo < current →
      trigger_auto_scaling action current lo hi = some (current - 1)) ∧
    (¬(action = Decision.scaleUp ∧ current < hi) →
      ¬(action = Decision.scaleDown ∧ lo < current) →
      trigger_auto_scaling action current lo hi = none) ∧
    (∀ n, trigger_auto_scaling action current lo hi = some n →
      lo ≤ n ∧ n ≤ hi ∧ (n = current + 1 ∨ n = current - 1)) := by
  refine ⟨fun ha hc => ?_, fun ha hc => ?_, fun h1 h2 => ?_, fun n hn => ?_⟩
  · subst ha
    rw [trigger_auto_scaling, if_pos ⟨rfl, hc⟩]
    congr 1
    omega
  · subst ha
    rw [trigger_auto_scaling, if_neg (by simp), if_pos ⟨rfl, hc⟩]
    congr 1
    omega
  · rw [trigger_auto_scaling, if_neg h1, if_neg h2]
  · rw [trigger_auto_scaling] at hn
    split_ifs at hn with hA hB
    · obtain ⟨-, hc⟩ := hA
      injection hn with h
      omega
    · obtain ⟨-, hc⟩ := hB
      injection hn with h
      omega

theorem c2_actuator_capacity_witness :
    trigger_auto_scaling Decision.scaleUp 3 1 5 = some (3 + 1) :=
  (c2_actuator_capacity Decision.scaleUp 3 1 5 (by decide) (by decide)).1 rfl (by decide)

/-- C3: the evaluator returns ScaleUp whenever at least one up trigger
fired, carrying all recorded reasons (up and down mixed when both fired);
ScaleDown when only the low-CPU trigger fired; otherwise Maintain with no
reasons, in particular for zero requests and zero utilization samples. -/
theorem c3_decision_resolution (m : Metrics) (cpus : List ℚ) :
    ((cpuHighT cpus || errHighT m || slowHighT m) = true →
      check_scaling_conditions m cpus = (Decision.scaleUp, expectedReasons m cpus)) ∧
    ((cpuHighT cpus || errHighT m || slowHighT m) = false → cpuLowT cpus = true →
      check_scaling_conditions m cpus = (Decision.scaleDown, [Reason.lowCpu])) ∧
    ((cpuHighT cpus || errHighT m || slowHighT m) = false → cpuLowT cpus = false →
      check_scaling_conditions m cpus = (Decision.maintain, [])) ∧
    (m.total_requests = 0 → cpus = [] →
      check_scaling_conditions m cpus = (Decision.maintain, [])) := by
  rw [check_spec]
  refine ⟨fun h => ?_, fun h hlow => ?_, fun h hlow => ?_, fun htot hcpus => ?_⟩
  · simp [h]
  · simp only [Bool.or_eq_false_iff] at h
    simp [h.1.1, h.1.2, h.2, hlow, expectedReasons]
  · simp only [Bool.or_eq_false_iff] at h
    simp [h.1.1, h.1.2, h.2, hlow, expectedReasons]
  · have h1 : cpuHighT cpus = false := by simp [cpuHighT, hcpus]
    have h2 : cpuLowT cpus = false := by simp [cpuLowT, hcpus]
    have h3 : errHighT m = false := by simp [errHighT, htot]
    have h4 : slowHighT m = false := by simp [slowHighT, htot]
    simp [h1, h2, h3, h4, expectedReasons]

theorem c3_decision_resolution_witness :
    check_scaling_conditions initMetrics [] = (Decision.maintain, []) :=
  (c3_decision_resolution initMetrics []).2.2.2 rfl rfl

/-- C4: the high-CPU and low-CPU triggers are mutually exclusive and both
off without samples; the error-rate and slow-rate triggers appear in the
reasons exactly when their own rate condition (with `total_requests > 0`)
holds, independently of the CPU data, and are skipped for zero requests. -/
theorem c4_trigger_independence (m : Metrics) (cpus : List ℚ) :
    (¬(cpuHighT cpus = true ∧ cpuLowT cpus = true)) ∧
    (cpus = [] → cpuHighT cpus = false ∧ cpuLowT cpus = false ∧
      Reason.highCpu ∉ (check_scaling_conditions m cpus).2 ∧
      Reason.lowCpu ∉ (check_scaling_conditions m cpus).2) ∧
    (Reason.highErrorRate ∈ (check_scaling_conditions m cpus).2 ↔ errHighT m = true) ∧
    (Reason.highSlowRate ∈ (check_scaling_conditions m cpus).2 ↔ slowHighT m = true) ∧
    (m.total_requests = 0 →
      Reason.highErrorRate ∉ (check_scaling_conditions m cpus).2 ∧
      Reason.highSlowRate ∉ (check_scaling_conditions m cpus).2) := by
  have hreasons : (check_scaling_conditions m cpus).2 = expectedReasons m cpus := by
    rw [check_spec]
  refine ⟨?_, fun hcpus => ?_, ?_, ?_, fun htot => ?_⟩
  · rintro ⟨h1, h2⟩
    simp only [cpuHighT, cpuLowT, Bool.and_eq_true, decide_eq_true_eq] at h1 h2
    have := h1.2
    have := h2.2
    rw [CPU_HIGH_THRESHOLD] at *
    rw [CPU_LOW_THRESHOLD] at *
    linarith
  · have h1 : cpuHighT cpus = false := by simp [cpuHighT, hcpus]
    have h2 : cpuLowT cpus = false := by simp [cpuLowT, hcpus]
    refine ⟨h1, h2, ?_, ?_⟩
    · rw [hreasons]
      simp [mem_reasons_highCpu, h1]
    · rw [hreasons]
      simp [mem_reasons_lowCpu, h2]
  · rw [hreasons]
    exact mem_reasons_highErr m cpus
  · rw [hreasons]
    exact mem_reasons_highSlow m cpus
  · have h3 : errHighT m = false := by simp [errHighT, htot]
    have h4 : slowHighT m = false := by simp [slowHighT, htot]
    rw [hreasons]
    constructor
    · simp [mem_reasons_highErr, h3]
    · simp [mem_reasons_highSlow, h4]

theorem c4_trigger_independence_witness :
    Reason.highErrorRate ∉ (check_scaling_conditions initMetrics [50]).2 ∧
      Reason.highSlowRate ∉ (check_scaling_conditions initMetrics [50]).2 :=
  (c4_trigger_independence initMetrics [50]).2.2.2.2 rfl

/-- C5 (amended: the whitespace/colon separator run must be non-empty, as in
the source regex `[:\s]+`, not merely optional): the parser finds a response
time exactly when the line contains `response_time`, one or more
whitespace/colon characters, a floating-point number and the literal `ms`;
every extracted value arises from such a decomposition; and a line without a
match contributes nothing to the response-time list or the slow count. -/
theorem c5_response_time_extraction (l : List Char) :
    ((∃ v, ContainsRT l v) ↔ (findRT l).isSome = true) ∧
    (∀ v, findRT l = some v → ContainsRT l v) ∧
    (findRT l = none → ∀ m ts,
      (processLine m ts l).1.slow_responses = m.slow_responses ∧
      (processLine m ts l).2 = ts) := by
  refine ⟨⟨fun ⟨v, hv⟩ => contains_findRT_isSome l v hv, fun hs => ?_⟩,
    fun v hv => findRT_some_contains l v hv, fun hn m ts => ?_⟩
  · obtain ⟨v, hv⟩ := Option.isSome_iff_exists.mp hs
    exact ⟨v, findRT_some_contains l v hv⟩
  · rw [processLine_spec]
    constructor
    · simp [lineSlow, hn, ite_self]
    · simp [lineTimes, hn, ite_self]

def c5Line : List Char := rtLit ++ [':', ' '] ++ ['2', '5', '0'] ++ msLit

theorem c5_response_time_extraction_witness :
    (findRT c5Line).isSome = true :=
  (c5_response_time_extraction c5Line).1.mp
    ⟨ratOfDigits ['2', '5', '0'] [], [], c5Line, by simp,
      [':', ' '], ['2', '5', '0'], [], by decide, by decide,
      Or.inl ⟨['2', '5', '0'], by decide, by decide, rfl, rfl⟩, by simp [c5Line]⟩

def c5CexLine : List Char := rtLit ++ ['1', '2', '3'] ++ msLit

/-- C5 counterexample: the line `response_time123ms` contains the pattern as
the spec words it (optional whitespace/colon separators, here absent) with
value 123, yet the parser extracts nothing. -/
theorem c5_counterexample :
    findRT c5CexLine = none ∧ ContainsRTSpec c5CexLine 123 := by
  constructor
  · decide
  · refine ⟨[], c5CexLine, by simp, [], ['1', '2', '3'], [], by simp,
      Or.inl ⟨['1', '2', '3'], by decide, by decide, rfl, ?_⟩, by simp [c5CexLine]⟩
    rw [ratOfDigits]
    norm_num [show natOfDigits ['1', '2', '3'] = 123 from by decide,
      show natOfDigits [] = 0 from rfl]

/-- C6 (amended: the whitespace/colon separator run must be non-empty, as in
the source regex `[:\s]+`, not merely optional): the parser finds a status
code exactly when the line contains `status`, one or more whitespace/colon
characters and three digits; every extracted value arises from such a
decomposition; and a line without a match gets no status-based
`error_count` increment. -/
theorem c6_status_extraction (l : List Char) :
    ((∃ v, ContainsStatus l v) ↔ (findStatus l).isSome = true) ∧
    (∀ v, findStatus l = some v → ContainsStatus l v) ∧
    (findStatus l = none → ∀ m ts,
      (processLine m ts l).1.error_count =
        m.error_count + (if isBlank l = false ∧ hasErrorMarker l = true then 1 else 0)) := by
  refine ⟨⟨fun ⟨v, hv⟩ => contains_findStatus_isSome l v hv, fun hs => ?_⟩,
    fun v hv => findStatus_some_contains l v hv, fun hn m ts => ?_⟩
  · obtain ⟨v, hv⟩ := Option.isSome_iff_exists.mp hs
    exact ⟨v, findStatus_some_contains l v hv⟩
  · rw [processLine_spec]
    by_cases hb : isBlank l <;> by_cases hm : hasErrorMarker l <;>
      simp [lineErr, hn, hb, hm]

def c6Line : List Char := statusLit ++ [':', ' '] ++ ['5', '0', '3']

theorem c6_status_extraction_witness :
    (findStatus c6Line).isSome = true :=
  (c6_status_extraction c6Line).1.mp
    ⟨natOfDigits ['5', '0', '3'], [], c6Line, by simp,
      [':', ' '], '5', '0', '3', [], by decide, by decide, by decide, by decide,
      by decide, rfl, by simp [c6Line]⟩

def c6CexLine : List Char := statusLit ++ ['5', '0', '0']

/-- C6 counterexample: the line `status500` contains the pattern as the spec
words it (optional whitespace/colon separators, here absent) with value 500,
yet the parser extracts nothing. -/
theorem c6_counterexample :
    findStatus c6CexLine = none ∧ ContainsStatusSpec c6CexLine 500 := by
  constructor
  · decide
  · exact ⟨[], c6CexLine, by simp, [], '5', '0', '0', [], by simp, by decide, by decide,
      by decide, by decide, by decide⟩

/-- C7: starting from the empty snapshot, `total_requests` counts exactly
the non-blank lines across all blobs, regardless of content, and a blank
(empty or whitespace-only) line changes neither the metrics nor the
response-time accumulator. -/
theorem c7_total_requests (log_contents : List (List Char)) :
    (parse_logs initMetrics log_contents).total_requests =
      ((linesOf log_contents).filter (fun l => !isBlank l)).length ∧
    (∀ l, isBlank l = true → ∀ m ts, processLine m ts l = (m, ts)) := by
  constructor
  · rw [parse_logs_spec]
    simp [initMetrics, sum_lineReq]
  · intro l hb m ts
    rw [processLine, if_pos hb]

theorem c7_total_requests_witness :
    processLine initMetrics [] [' '] = (initMetrics, []) :=
  (c7_total_requests []).2 [' '] (by decide) initMetrics []

/-- C8: from the empty snapshot, `avg_response_time` is 0 when no response
time was collected and otherwise the arithmetic mean of all collected
times; the denominator is a non-zero count (never a division by zero); and
permuting the processed lines leaves the average unchanged. -/
theorem c8_average_response_time (log_contents : List (List Char)) :
    (respTimes log_contents = [] →
      (parse_logs initMetrics log_contents).avg_response_time = 0) ∧
    (respTimes log_contents ≠ [] →
      ((respTimes log_contents).length : ℚ) ≠ 0 ∧
      (parse_logs initMetrics log_contents).avg_response_time =
        (respTimes log_contents).sum / ((respTimes log_contents).length : ℚ)) ∧
    (∀ other, (linesOf log_contents).Perm (linesOf other) →
      (parse_logs initMetrics log_contents).avg_response_time =
        (parse_logs initMetrics other).avg_response_time) := by
  refine ⟨fun h => ?_, fun h => ⟨?_, ?_⟩, fun other hperm => ?_⟩
  · rw [parse_logs_spec]
    simp [h, initMetrics]
  · exact Nat.cast_ne_zero.mpr (fun h0 => h (List.length_eq_zero.mp h0))
  · rw [parse_logs_spec]
    simp [h]
  · have htimes : (respTimes log_contents).Perm (respTimes other) :=
      (hperm.map lineTimes).flatten
    rw [parse_logs_spec, parse_logs_spec]
    by_cases hemp : respTimes log_contents = []
    · have hB : respTimes other = [] := by
        rw [hemp] at htimes
        exact htimes.symm.eq_nil
      simp [hemp, hB, initMetrics]
    · have hB : respTimes other ≠ [] := by
        intro h0
        rw [h0] at htimes
        exact hemp htimes.eq_nil
      simp [hemp, hB, htimes.sum_eq, htimes.length_eq]

theorem c8_average_response_time_witness :
    (parse_logs initMetrics []).avg_response_time = 0 :=
  (c8_average_response_time []).1 rfl

/-- The line `response_time:1ms`. -/
def rtLineOne : List Char := rtLit ++ [':', '1'] ++ msLit

/-- The line `response_time:3ms`. -/
def rtLineThree : List Char := rtLit ++ [':', '3'] ++ msLit

theorem linesOf_append (A B : List (List Char)) :
    linesOf (A ++ B) = linesOf A ++ linesOf B := by
  simp [linesOf]

/-- C9: running `parse_logs` twice is additive in the three counters (the
same as one run on the concatenation), while the final average reflects only
the second batch's times — keeping its previous value when the second batch
has none — and in general differs from the mean over the concatenation. -/
theorem c9_sequential_aggregation (m : Metrics) (A B : List (List Char)) :
    ((parse_logs (parse_logs m A) B).total_requests =
      (parse_logs m (A ++ B)).total_requests) ∧
    ((parse_logs (parse_logs m A) B).error_count =
      (parse_logs m (A ++ B)).error_count) ∧
    ((parse_logs (parse_logs m A) B).slow_responses =
      (parse_logs m (A ++ B)).slow_responses) ∧
    (respTimes B ≠ [] →
      (parse_logs (parse_logs m A) B).avg_response_time =
        (respTimes B).sum / ((respTimes B).length : ℚ)) ∧
    (respTimes B = [] →
      (parse_logs (parse_logs m A) B).avg_response_time =
        (parse_logs m A).avg_response_time) ∧
    ((parse_logs (parse_logs initMetrics [rtLineOne]) [rtLineThree]).avg_response_time ≠
      (parse_logs initMetrics ([rtLineOne] ++ [rtLineThree])).avg_response_time) := by
  refine ⟨?_, ?_, ?_, fun h => ?_, fun h => ?_, ?_⟩
  · simp only [parse_logs_spec]
    simp +arith [linesOf_append]
  · simp only [parse_logs_spec]
    simp +arith [linesOf_append]
  · simp only [parse_logs_spec]
    simp +arith [linesOf_append]
  · simp only [parse_logs_spec]
    simp [h]
  · simp only [parse_logs_spec]
    simp [h]
  · have e1 : ratOfDigits ['1'] [] = 1 := by
      rw [ratOfDigits]
      norm_num [show natOfDigits ['1'] = 1 from by decide,
        show natOfDigits [] = 0 from rfl]
    have e3 : ratOfDigits ['3'] [] = 3 := by
      rw [ratOfDigits]
      norm_num [show natOfDigits ['3'] = 3 from by decide,
        show natOfDigits [] = 0 from rfl]
    have hB : respTimes [rtLineThree] = [ratOfDigits ['3'] []] := rfl
    have hAB : respTimes ([rtLineOne] ++ [rtLineThree]) =
        [ratOfDigits ['1'] [], ratOfDigits ['3'] []] := rfl
    simp only [parse_logs_spec, hB, hAB]
    simp [e1, e3]
    norm_num

theorem c9_sequential_aggregation_witness :
    (parse_logs (parse_logs initMetrics []) []).avg_response_time =
      (parse_logs initMetrics []).avg_response_time :=
  (c9_sequential_aggregation initMetrics [] []).2.2.2.2.1 rfl

theorem sum_map_two_mul_lineReq (ls : List (List Char)) :
    (ls.map (fun l => 2 * lineReq l)).sum = 2 * (ls.map lineReq).sum := by
  induction ls with
  | nil => rfl
  | cons x xs ih => simp [ih, Nat.mul_add]

/-- C10: from the all-zero snapshot, after any batch
`slow_responses ≤ total_requests` and `error_count ≤ 2 * total_requests`,
and each of the three counters is non-decreasing at every processed line. -/
theorem c10_counter_invariants (log_contents : List (List Char)) :
    ((parse_logs initMetrics log_contents).slow_responses ≤
      (parse_logs initMetrics log_contents).total_requests) ∧
    ((parse_logs initMetrics log_contents).error_count ≤
      2 * (parse_logs initMetrics log_contents).total_requests) ∧
    (∀ m ts l, m.error_count ≤ (processLine m ts l).1.error_count ∧
      m.slow_responses ≤ (processLine m ts l).1.slow_responses ∧
      m.total_requests ≤ (processLine m ts l).1.total_requests) := by
  refine ⟨?_, ?_, fun m ts l => ?_⟩
  · rw [parse_logs_spec]
    simp only [initMetrics, Nat.zero_add]
    exact List.sum_le_sum (fun i _ => lineSlow_le_lineReq i)
  · rw [parse_logs_spec]
    simp only [initMetrics, Nat.zero_add]
    calc ((linesOf log_contents).map lineErr).sum
        ≤ ((linesOf log_contents).map (fun l => 2 * lineReq l)).sum :=
          List.sum_le_sum (fun i _ => lineErr_le_two_lineReq i)
      _ = 2 * ((linesOf log_contents).map lineReq).sum :=
          sum_map_two_mul_lineReq (linesOf log_contents)
  · rw [processLine_spec]
    exact ⟨Nat.le_add_right _ _, Nat.le_add_right _ _, Nat.le_add_right _ _⟩
